import Mathlib

/-!
Formal model of `splash/browser_tab.py` (class `BrowserTab`).

The tab is modelled as a record of the mutable fields the verified
operations touch, and every operation returns the updated state together
with a trace of the externally observable actions it performed (callback
invocations, engine calls, contract-level log entries, set/dict
mutations), listed in the order the corresponding Python statements
execute.  Python sets and dicts over timer objects are modelled as lists
of timer identifiers; a fresh identifier stands for a fresh `QTimer`
object.  Log messages keep their literal text but elide interpolated
runtime values (object ids, error strings rendered with `%`); the
`min_level` argument of `logger.log` is carried verbatim, with the
verbosity filtering of `_BrowserTabLogger` (bootstrap/logging glue)
treated as part of the external sink.
-/

set_option maxHeartbeats 1000000

/-- Redirect-cancellation policy attached to a timer by `wait`:
a truthy non-callable value (`True`) means "just cancel", a callable
means "cancel and invoke me".  A falsy `onredirect` is modelled as
`Option.none` at the call sites. -/
inductive RedirectPolicy
  | justCancel
  | withCallback
deriving DecidableEq, Repr

/-- One stored history entry: the `request` sub-record and the remaining
top-level fields, each as an association list of a dict. -/
structure HistoryEntry where
  request : List (String × String)
  other : List (String × String)
deriving DecidableEq, Repr

/-- Externally observable actions emitted by the tab's operations. -/
inductive Ev
  | logEv (msg : String) (minLevel : Nat)
  | deliverSuccess
  | deliverError
  | successCallback
  | errorCallback
  | timerCallback (t : Nat)
  | redirectCallback (t : Nat)
  | removeActive (t : Nat)
  | popCancel (t : Nat)
  | stopTimer (t : Nat)
  | startTimer (t : Nat) (ms : Nat)
  | networkFetch (url : String)
  | engineLoad (url : String) (meth : String) (body : Option String)
  | connectLoadFinished
  | setContent (data : List Nat) (mime : String) (baseurl : String)
  | closeReply
  | harTiming (name : String)
deriving DecidableEq, Repr

/-- The mutable state of a `BrowserTab` relevant to the verified
operations.  `runningTimers` models which `QTimer` objects are started
and not yet stopped or fired; `usedTimers` records every identifier ever
handed to `wait`, encoding that distinct `QTimer` objects are distinct
dictionary keys. -/
structure TabState where
  closing : Bool
  errorInfo : Option String
  deferredCalled : Bool
  activeTimers : List Nat
  cancelOnRedirectTimers : List (Nat × RedirectPolicy)
  runningTimers : List Nat
  usedTimers : List Nat
  history : List (Option HistoryEntry)
  harTimings : List String
deriving DecidableEq, Repr

/-- Python `set.add`. -/
def setAdd (x : Nat) (s : List Nat) : List Nat :=
  if x ∈ s then s else x :: s

/-- Python `set.remove` / `set.discard` (call sites guarantee presence). -/
def setRemove (x : Nat) (s : List Nat) : List Nat :=
  s.filter (fun y => y != x)

/-- Python `dict.pop(x, None)` on a dict keyed by timer identity. -/
def dictPop (x : Nat) (d : List (Nat × RedirectPolicy)) : List (Nat × RedirectPolicy) :=
  d.filter (fun kv => kv.1 != x)

/-- Python `d[x] = v` on a dict keyed by timer identity. -/
def dictSet (x : Nat) (v : RedirectPolicy) (d : List (Nat × RedirectPolicy)) :
    List (Nat × RedirectPolicy) :=
  (x, v) :: dictPop x d

/-- The values stored under key `x`, in order (a dict has at most one). -/
def keyOccs (x : Nat) (d : List (Nat × RedirectPolicy)) : List RedirectPolicy :=
  (d.filter (fun kv => kv.1 == x)).map Prod.snd

/-- Python truthiness of the optional `baseurl` argument
(`None` and the empty byte string are falsy). -/
def truthyStr : Option String → Bool
  | none => false
  | some s => s != ""

/-- Embedding of `BrowserTab.store_har_timing`. -/
def store_har_timing (st : TabState) (name : String) : TabState :=
  { st with harTimings := st.harTimings ++ [name] }

/-- Embedding of `BrowserTab.result_already_returned`
(`self.deferred.called`). -/
def result_already_returned (st : TabState) : Bool :=
  st.deferredCalled

/-- Embedding of `BrowserTab.return_result`: warn (min_level 1) when the
deferred was already fired, then call `deferred.callback(result)`; the
deferred records that it has been fired. -/
def return_result (st : TabState) : TabState × List Ev :=
  let warn :=
    if result_already_returned st then
      [Ev.logEv "error: result is already returned" 1]
    else []
  ({ st with deferredCalled := true }, warn ++ [Ev.deliverSuccess])

/-- Embedding of `BrowserTab.return_error`: warn (min_level 1) when the
deferred was already fired, then call `deferred.errback(error)`. -/
def return_error (st : TabState) : TabState × List Ev :=
  let warn :=
    if result_already_returned st then
      [Ev.logEv "error: result is already returned" 1]
    else []
  ({ st with deferredCalled := true }, warn ++ [Ev.deliverError])

/-- Outcome of a call to `go`: normal return, or the
`raise NotImplementedError()` taken on the non-GET base-URL path (the
spec's NotSupportedError). -/
inductive GoOutcome
  | completed
  | notSupported
deriving DecidableEq, Repr

/-- Embedding of `BrowserTab.go`.  It stores the `_onStarted` HAR timing
marker first; with a truthy `baseurl` it rejects non-GET methods and
otherwise issues a raw network fetch (`network_manager.get`), while
without a `baseurl` it connects `loadFinished` and loads the URL into
the main frame with the given method and body.  Header attachment by
`_create_request` is subsumed into the emitted load/fetch action. -/
def go (st : TabState) (url : String) (baseurl : Option String)
    (http_method : String) (body : Option String) :
    TabState × List Ev × GoOutcome :=
  let st1 := store_har_timing st "_onStarted"
  if truthyStr baseurl then
    if http_method != "GET" then
      (st1, [Ev.harTiming "_onStarted"], GoOutcome.notSupported)
    else
      (st1, [Ev.harTiming "_onStarted", Ev.networkFetch url], GoOutcome.completed)
  else
    (st1, [Ev.harTiming "_onStarted", Ev.connectLoadFinished,
           Ev.engineLoad url http_method body], GoOutcome.completed)

/-- Embedding of `BrowserTab._on_goto_load_finished`: ignore the signal
while closing, otherwise classify `(ok, web_page.errorInfo)` and invoke
`callback` / `errback` accordingly (the logged `str(errorInfo)` payload
is elided from the message text). -/
def on_goto_load_finished (st : TabState) (ok : Bool) : TabState × List Ev :=
  if st.closing then
    (st, [Ev.logEv "loadFinished is ignored because BrowserTab is closing" 2])
  else
    let page_ok := ok && st.errorInfo.isNone
    let maybe_redirect := !ok && st.errorInfo.isNone
    let error_loading := ok && st.errorInfo.isSome
    if maybe_redirect then
      (st, [Ev.logEv "Redirect or other non-fatal error detected" 2])
    else if page_ok then
      (st, [Ev.logEv "loadFinished: ok" 2, Ev.successCallback])
    else if error_loading then
      (st, [Ev.logEv "loadFinished: error" 1, Ev.errorCallback])
    else
      (st, [Ev.logEv "loadFinished: unknown error" 1, Ev.errorCallback])

/-- The raw network reply consumed by `_on_baseurl_request_finished`:
body bytes, declared content type, and the error state reported by
`reply.error()` / `reply.errorString()`. -/
structure Reply where
  dataBytes : List Nat
  contentType : String
  hasError : Bool
  errorString : String
deriving DecidableEq, Repr

/-- Embedding of `BrowserTab._on_baseurl_request_finished`: connect
`loadFinished`, inject the reply body and content type into the main
frame against the base URL, log a fetch error if the reply carries one,
then close the reply. -/
def on_baseurl_request_finished (st : TabState) (reply : Reply)
    (baseurl url : String) : TabState × List Ev :=
  (st,
   [Ev.logEv "baseurl_request_finished" 2, Ev.connectLoadFinished,
    Ev.setContent reply.dataBytes reply.contentType baseurl] ++
   (if reply.hasError then
      [Ev.logEv ("Error loading " ++ url ++ ": " ++ reply.errorString) 1]
    else []) ++
   [Ev.closeReply])

/-- Embedding of `BrowserTab.wait`: create and start a fresh single-shot
timer (identifier `tid`), add it to the active set, and register the
redirect-cancellation policy when `onredirect` is truthy. -/
def wait (st : TabState) (tid : Nat) (time_ms : Nat)
    (onredirect : Option RedirectPolicy) : TabState × List Ev :=
  let st1 := { st with
    runningTimers := setAdd tid st.runningTimers,
    usedTimers := setAdd tid st.usedTimers,
    activeTimers := setAdd tid st.activeTimers }
  let st2 :=
    match onredirect with
    | some p =>
        { st1 with cancelOnRedirectTimers := dictSet tid p st1.cancelOnRedirectTimers }
    | none => st1
  (st2, [Ev.logEv "waiting" 2, Ev.startTimer tid time_ms])

/-- Embedding of `BrowserTab._on_wait_timeout`: log, remove the timer
from the active set, pop it from the redirect-cancel dict, then invoke
the original callback. -/
def on_wait_timeout (st : TabState) (tid : Nat) : TabState × List Ev :=
  ({ st with
      activeTimers := setRemove tid st.activeTimers,
      cancelOnRedirectTimers := dictPop tid st.cancelOnRedirectTimers },
   [Ev.logEv "wait timeout" 2, Ev.removeActive tid, Ev.popCancel tid,
    Ev.timerCallback tid])

/-- Embedding of `BrowserTab._cancel_timer`: log, pop the timer from the
redirect-cancel dict, remove it from the active set, stop it, and invoke
`errback` when it is callable (the `withCallback` policy). -/
def cancel_timer (st : TabState) (tid : Nat) (errback : RedirectPolicy) :
    TabState × List Ev :=
  ({ st with
      cancelOnRedirectTimers := dictPop tid st.cancelOnRedirectTimers,
      activeTimers := setRemove tid st.activeTimers,
      runningTimers := setRemove tid st.runningTimers },
   [Ev.logEv "cancelling timer" 2, Ev.popCancel tid, Ev.removeActive tid,
    Ev.stopTimer tid] ++
   (match errback with
    | RedirectPolicy.withCallback => [Ev.redirectCallback tid]
    | RedirectPolicy.justCancel => []))

/-- The `for timer, onredirect in list(...items())` loop of
`_on_url_changed`: cancel each timer of the snapshot in order,
concatenating the emitted actions. -/
def sweep (st : TabState) : List (Nat × RedirectPolicy) → TabState × List Ev
  | [] => (st, [])
  | kv :: rest =>
      let r := cancel_timer st kv.1 kv.2
      let rr := sweep r.1 rest
      (rr.1, r.2 ++ rr.2)

/-- Embedding of `BrowserTab._on_url_changed`: append a history entry
when the HAR log yields a causally-preceding record for the new URL
(`cause_ev`, supplied by the out-of-scope HAR collaborator), then cancel
every timer of a snapshot of the redirect-cancel associations. -/
def on_url_changed (st : TabState) (cause_ev : Option HistoryEntry) :
    TabState × List Ev :=
  let st1 :=
    match cause_ev with
    | some e => { st with history := st.history ++ [some e] }
    | none => st
  sweep st1 st1.cancelOnRedirectTimers

/-- Removal of the `queryString` key from a request sub-record
(`del entry['request']['queryString']`). -/
def stripQueryString (r : List (String × String)) : List (String × String) :=
  r.filter (fun kv => kv.1 != "queryString")

/-- Embedding of `BrowserTab.history`: deep-copy the stored history list
and delete the `queryString` field from the request sub-record of every
non-null entry. -/
def history (st : TabState) : List Ev × List (Option HistoryEntry) :=
  ([Ev.logEv "getting history" 3],
   st.history.map (fun entry =>
     entry.map (fun e => { e with request := stripQueryString e.request })))

/-- External stimuli delivered by the event loop to one tab: a URL
change (with the HAR lookup result for the new URL), the firing of a
started single-shot timer, and a call to `wait` with a fresh timer
object. -/
inductive ExtEvent
  | urlChanged (cause : Option HistoryEntry)
  | timerFired (t : Nat)
  | waitCall (t : Nat) (ms : Nat) (onredirect : Option RedirectPolicy)
deriving DecidableEq, Repr

/-- One dispatcher step: a timer fires only while started and not
stopped (single-shot: firing consumes the started state), and a `wait`
call with an already-used identifier is not a fresh timer object and is
ignored. -/
def dispatch (st : TabState) : ExtEvent → TabState × List Ev
  | ExtEvent.urlChanged c => on_url_changed st c
  | ExtEvent.timerFired t =>
      if t ∈ st.runningTimers then
        on_wait_timeout { st with runningTimers := setRemove t st.runningTimers } t
      else (st, [])
  | ExtEvent.waitCall t ms p =>
      if t ∈ st.usedTimers then (st, []) else wait st t ms p

/-- Run a sequence of external stimuli, concatenating emitted actions. -/
def runEvents (st : TabState) : List ExtEvent → TabState × List Ev
  | [] => (st, [])
  | e :: rest =>
      let r := dispatch st e
      let rr := runEvents r.1 rest
      (rr.1, r.2 ++ rr.2)

/-- Concrete open tab used to instantiate hypotheses. -/
def stOpen : TabState :=
  { closing := false, errorInfo := none, deferredCalled := false,
    activeTimers := [], cancelOnRedirectTimers := [], runningTimers := [],
    usedTimers := [], history := [], harTimings := [] }

/-- C1: while the closing flag is false, `_on_goto_load_finished`
follows the classification table: `ok` true and empty error slot invokes
the success callback; `ok` false and empty error slot takes no action; a
populated error slot (with `ok` true or false) invokes the error
callback. -/
theorem goto_load_finished_classification (st : TabState) (ok : Bool)
    (h : st.closing = false) :
    (ok = true → st.errorInfo = none →
      Ev.successCallback ∈ (on_goto_load_finished st ok).2 ∧
      Ev.errorCallback ∉ (on_goto_load_finished st ok).2) ∧
    (ok = false → st.errorInfo = none →
      Ev.successCallback ∉ (on_goto_load_finished st ok).2 ∧
      Ev.errorCallback ∉ (on_goto_load_finished st ok).2) ∧
    (∀ e, st.errorInfo = some e →
      Ev.errorCallback ∈ (on_goto_load_finished st ok).2 ∧
      Ev.successCallback ∉ (on_goto_load_finished st ok).2) := by
  refine ⟨?_, ?_, ?_⟩
  · intro hok herr
    simp [on_goto_load_finished, h, hok, herr]
  · intro hok herr
    simp [on_goto_load_finished, h, hok, herr]
  · intro e herr
    cases ok <;> simp [on_goto_load_finished, h, herr]

/-- Witness for C1 at a concrete open tab and `ok = true`. -/
theorem goto_load_finished_classification_witness :
    Ev.successCallback ∈ (on_goto_load_finished stOpen true).2 ∧
    Ev.errorCallback ∉ (on_goto_load_finished stOpen true).2 :=
  (goto_load_finished_classification stOpen true rfl).1 rfl rfl

/-- C2: `return_result` and `return_error` emit a warning-level
(min_level 1) log entry exactly when the deferred has already been
fired, and in every case still attempt delivery against the underlying
deferred. -/
theorem return_result_double_delivery (st : TabState) :
    (st.deferredCalled = true →
      (return_result st).2 =
        [Ev.logEv "error: result is already returned" 1, Ev.deliverSuccess] ∧
      (return_error st).2 =
        [Ev.logEv "error: result is already returned" 1, Ev.deliverError]) ∧
    (st.deferredCalled = false →
      (return_result st).2 = [Ev.deliverSuccess] ∧
      (return_error st).2 = [Ev.deliverError]) := by
  constructor <;> intro h <;>
    simp [return_result, return_error, result_already_returned, h]

/-- Concrete tab whose deferred has already been fired. -/
def stDone : TabState := { stOpen with deferredCalled := true }

/-- Witness for C2 in both the fulfilled and the empty channel case. -/
theorem return_result_double_delivery_witness :
    (return_result stDone).2 =
      [Ev.logEv "error: result is already returned" 1, Ev.deliverSuccess] ∧
    (return_result stOpen).2 = [Ev.deliverSuccess] :=
  ⟨((return_result_double_delivery stDone).1 rfl).1,
   ((return_result_double_delivery stOpen).2 rfl).1⟩

/-- C3: `go` with a truthy `baseurl` and a non-GET method fails with the
not-supported outcome and issues neither a raw network fetch nor an
engine load. -/
theorem go_baseurl_post_rejected (st : TabState) (url b : String)
    (body : Option String) (http_method : String)
    (hb : b ≠ "") (hm : http_method ≠ "GET") :
    (go st url (some b) http_method body).2.2 = GoOutcome.notSupported ∧
    (∀ u, Ev.networkFetch u ∉ (go st url (some b) http_method body).2.1) ∧
    (∀ u m bo, Ev.engineLoad u m bo ∉ (go st url (some b) http_method body).2.1) := by
  simp [go, truthyStr, bne_iff_ne, hb, hm]

/-- Witness for C3 at a concrete POST call with a base URL. -/
theorem go_baseurl_post_rejected_witness :
    (go stOpen "http://example" (some "http://base") "POST" none).2.2 =
      GoOutcome.notSupported :=
  (go_baseurl_post_rejected stOpen "http://example" "http://base" none "POST"
    (by decide) (by decide)).1

/-- C4: once the closing flag is true, a load-finished signal leaves the
tab state unchanged and delivers neither callback. -/
theorem load_finished_ignored_when_closing (st : TabState) (ok : Bool)
    (h : st.closing = true) :
    (on_goto_load_finished st ok).1 = st ∧
    Ev.successCallback ∉ (on_goto_load_finished st ok).2 ∧
    Ev.errorCallback ∉ (on_goto_load_finished st ok).2 := by
  simp [on_goto_load_finished, h]

/-- Concrete tab whose closing flag is set. -/
def stClosing : TabState := { stOpen with closing := true }

/-- Witness for C4 at a concrete closing tab. -/
theorem load_finished_ignored_when_closing_witness :
    (on_goto_load_finished stClosing true).1 = stClosing ∧
    Ev.successCallback ∉ (on_goto_load_finished stClosing true).2 ∧
    Ev.errorCallback ∉ (on_goto_load_finished stClosing true).2 :=
  load_finished_ignored_when_closing stClosing true rfl

/-- C9: `_on_baseurl_request_finished` always injects the fetched bytes
and declared content type against the base URL, and a fetch error adds a
log entry without blocking that injection. -/
theorem baseurl_content_injected_despite_error (st : TabState) (reply : Reply)
    (baseurl url : String) :
    Ev.setContent reply.dataBytes reply.contentType baseurl ∈
      (on_baseurl_request_finished st reply baseurl url).2 ∧
    (reply.hasError = true →
      Ev.logEv ("Error loading " ++ url ++ ": " ++ reply.errorString) 1 ∈
        (on_baseurl_request_finished st reply baseurl url).2) := by
  constructor
  · simp [on_baseurl_request_finished]
  · intro h
    simp [on_baseurl_request_finished, h]

/-- Concrete errored network reply. -/
def replyErr : Reply :=
  { dataBytes := [60, 62], contentType := "text/html", hasError := true,
    errorString := "boom" }

/-- Witness for C9 at a concrete errored reply. -/
theorem baseurl_content_injected_despite_error_witness :
    Ev.setContent replyErr.dataBytes replyErr.contentType "http://base" ∈
      (on_baseurl_request_finished stOpen replyErr "http://base" "http://u").2 ∧
    Ev.logEv ("Error loading " ++ "http://u" ++ ": " ++ replyErr.errorString) 1 ∈
      (on_baseurl_request_finished stOpen replyErr "http://base" "http://u").2 :=
  ⟨(baseurl_content_injected_despite_error stOpen replyErr "http://base" "http://u").1,
   (baseurl_content_injected_despite_error stOpen replyErr "http://base" "http://u").2 rfl⟩

/-- C10: even when the non-GET base-URL call is rejected, `go` has
already appended the `_onStarted` HAR timing marker. -/
theorem go_baseurl_post_records_timing (st : TabState) (url b : String)
    (body : Option String) (http_method : String)
    (hb : b ≠ "") (hm : http_method ≠ "GET") :
    (go st url (some b) http_method body).2.2 = GoOutcome.notSupported ∧
    (go st url (some b) http_method body).1.harTimings =
      st.harTimings ++ ["_onStarted"] ∧
    Ev.harTiming "_onStarted" ∈ (go st url (some b) http_method body).2.1 := by
  simp [go, truthyStr, store_har_timing, bne_iff_ne, hb, hm]

/-- Witness for C10 at a concrete POST call with a base URL. -/
theorem go_baseurl_post_records_timing_witness :
    (go stOpen "http://example" (some "http://base") "POST" none).1.harTimings =
      stOpen.harTimings ++ ["_onStarted"] :=
  (go_baseurl_post_records_timing stOpen "http://example" "http://base" none "POST"
    (by decide) (by decide)).2.1

/-- Concrete tab with one pending redirect-cancellable timer (id 7). -/
def stTimer7 : TabState :=
  { closing := false, errorInfo := none, deferredCalled := false,
    activeTimers := [7], cancelOnRedirectTimers := [(7, RedirectPolicy.justCancel)],
    runningTimers := [7], usedTimers := [7], history := [], harTimings := [] }

/-- C6 counterexample: on natural expiry of timer 7 the callback is NOT
invoked before the removals; both removals precede it in the handler's
action sequence. -/
theorem wait_timeout_order_counterexample :
    Ev.timerCallback 7 ∈ (on_wait_timeout stTimer7 7).2 ∧
    Ev.removeActive 7 ∈ (on_wait_timeout stTimer7 7).2 ∧
    Ev.popCancel 7 ∈ (on_wait_timeout stTimer7 7).2 ∧
    ¬ ((on_wait_timeout stTimer7 7).2.indexOf (Ev.timerCallback 7) <
       (on_wait_timeout stTimer7 7).2.indexOf (Ev.removeActive 7)) ∧
    ¬ ((on_wait_timeout stTimer7 7).2.indexOf (Ev.timerCallback 7) <
       (on_wait_timeout stTimer7 7).2.indexOf (Ev.popCancel 7)) := by
  decide

/-- C6 (amended): on natural expiry the handler removes the timer from
the active set, then pops the redirect-cancel association, and only then
invokes the original callback, all before returning to the event loop. -/
theorem wait_timeout_removes_before_callback (st : TabState) (tid : Nat) :
    tid ∉ (on_wait_timeout st tid).1.activeTimers ∧
    (∀ q, (tid, q) ∉ (on_wait_timeout st tid).1.cancelOnRedirectTimers) ∧
    ∃ l1 l2 l3, (on_wait_timeout st tid).2 =
        l1 ++ Ev.removeActive tid :: l2 ++ Ev.popCancel tid :: l3 ++
          [Ev.timerCallback tid] ∧
      Ev.timerCallback tid ∉ l1 ∧ Ev.timerCallback tid ∉ l2 ∧
      Ev.timerCallback tid ∉ l3 := by
  refine ⟨?_, ?_, [Ev.logEv "wait timeout" 2], [], [], rfl, by simp, by simp, by simp⟩
  · simp [on_wait_timeout, setRemove, List.mem_filter]
  · intro q
    simp [on_wait_timeout, dictPop, List.mem_filter]

/-- C8: the history snapshot has the same length and order as the stored
list, preserves null entries, maps every stored non-null entry to a copy
whose request sub-record merely lost its `queryString` key, and every
returned non-null entry lacks a `queryString` key. -/
theorem history_snapshot_strips_querystring (st : TabState) :
    (history st).2.length = st.history.length ∧
    (∀ (i : Nat), st.history[i]? = some none → (history st).2[i]? = some none) ∧
    (∀ (i : Nat) (e : HistoryEntry), st.history[i]? = some (some e) →
      (history st).2[i]? =
        some (some { e with request := stripQueryString e.request })) ∧
    (∀ entry, some entry ∈ (history st).2 →
      ∀ v, ("queryString", v) ∉ entry.request) := by
  refine ⟨by simp [history], ?_, ?_, ?_⟩
  · intro i h
    simp [history, List.getElem?_map, h]
  · intro i e h
    simp [history, List.getElem?_map, h]
  · intro entry hmem v hv
    simp [history, List.mem_map] at hmem
    obtain ⟨oe, _, hoe⟩ := hmem
    cases oe with
    | none => simp at hoe
    | some e =>
        simp at hoe
        subst hoe
        simp [stripQueryString, List.mem_filter] at hv

/-- Witness for C6 (amended) at a concrete pending timer. -/
theorem wait_timeout_removes_before_callback_witness :
    7 ∉ (on_wait_timeout stTimer7 7).1.activeTimers :=
  (wait_timeout_removes_before_callback stTimer7 7).1

/-- Concrete stored history entry that contains a `queryString` field. -/
def entryQS : HistoryEntry :=
  { request := [("queryString", "a=b"), ("url", "http://e")],
    other := [("status", "200")] }

/-- Concrete tab with a stored history of one real and one null entry. -/
def stHist : TabState := { stOpen with history := [some entryQS, none] }

/-- Witness for C8 at a concrete stored history. -/
theorem history_snapshot_strips_querystring_witness :
    (history stHist).2[0]? =
      some (some { entryQS with request := stripQueryString entryQS.request }) ∧
    (history stHist).2[1]? = some none :=
  ⟨(history_snapshot_strips_querystring stHist).2.2.1 0 entryQS rfl,
   (history_snapshot_strips_querystring stHist).2.1 1 rfl⟩

theorem mem_setAdd {y x : Nat} {s : List Nat} :
    y ∈ setAdd x s ↔ y = x ∨ y ∈ s := by
  by_cases h : x ∈ s
  · simp only [setAdd, if_pos h]
    constructor
    · exact Or.inr
    · rintro (rfl | hy)
      · exact h
      · exact hy
  · simp [setAdd, if_neg h]

theorem mem_setRemove {y x : Nat} {s : List Nat} :
    y ∈ setRemove x s ↔ y ∈ s ∧ y ≠ x := by
  simp [setRemove, List.mem_filter, bne_iff_ne]

theorem mem_dictPop {t x : Nat} {q : RedirectPolicy}
    {d : List (Nat × RedirectPolicy)} :
    (t, q) ∈ dictPop x d ↔ (t, q) ∈ d ∧ t ≠ x := by
  simp [dictPop, List.mem_filter, bne_iff_ne]

theorem keyOccs_cons {x : Nat} {kv : Nat × RedirectPolicy}
    {d : List (Nat × RedirectPolicy)} :
    keyOccs x (kv :: d) =
      if kv.1 = x then kv.2 :: keyOccs x d else keyOccs x d := by
  by_cases h : kv.1 = x
  · simp [keyOccs, List.filter_cons, h]
  · simp [keyOccs, List.filter_cons, h]

theorem keyOccs_dictPop_self {x : Nat} {d : List (Nat × RedirectPolicy)} :
    keyOccs x (dictPop x d) = [] := by
  induction d with
  | nil => rfl
  | cons kv rest ih =>
      by_cases h : kv.1 = x
      · simpa [dictPop, List.filter_cons, h] using ih
      · simpa [dictPop, List.filter_cons, bne_iff_ne, h, keyOccs_cons] using ih

theorem keyOccs_dictPop_ne {x y : Nat} (h : y ≠ x)
    {d : List (Nat × RedirectPolicy)} :
    keyOccs x (dictPop y d) = keyOccs x d := by
  induction d with
  | nil => rfl
  | cons kv rest ih =>
      by_cases hk : kv.1 = y
      · rw [show dictPop y (kv :: rest) = dictPop y rest from by
              simp [dictPop, List.filter_cons, hk]]
        rw [ih, keyOccs_cons, if_neg (by rw [hk]; exact h)]
      · rw [show dictPop y (kv :: rest) = kv :: dictPop y rest from by
              simp [dictPop, List.filter_cons, bne_iff_ne, hk]]
        rw [keyOccs_cons, keyOccs_cons, ih]

theorem keyOccs_dictSet_self {x : Nat} {p : RedirectPolicy}
    {d : List (Nat × RedirectPolicy)} :
    keyOccs x (dictSet x p d) = [p] := by
  simp [dictSet, keyOccs_cons, keyOccs_dictPop_self]

theorem keyOccs_dictSet_ne {x y : Nat} (h : y ≠ x) {p : RedirectPolicy}
    {d : List (Nat × RedirectPolicy)} :
    keyOccs x (dictSet y p d) = keyOccs x d := by
  simp [dictSet, keyOccs_cons, h, keyOccs_dictPop_ne h]

theorem keyOccs_eq_nil_iff {x : Nat} {d : List (Nat × RedirectPolicy)} :
    keyOccs x d = [] ↔ ∀ kv ∈ d, kv.1 ≠ x := by
  simp [keyOccs, List.filter_eq_nil_iff]

/-- Membership invariant of the two timer collections: every key of the
redirect-cancel dict is a member of the active-timer set. -/
def MemInv (s : TabState) : Prop :=
  ∀ t q, (t, q) ∈ s.cancelOnRedirectTimers → t ∈ s.activeTimers

theorem cancel_timer_memInv {s : TabState} {tid : Nat} {q : RedirectPolicy}
    (h : MemInv s) : MemInv (cancel_timer s tid q).1 := by
  intro t q2 hm
  simp only [cancel_timer] at hm ⊢
  have h2 := mem_dictPop.mp hm
  exact mem_setRemove.mpr ⟨h t q2 h2.1, h2.2⟩

theorem sweep_memInv : ∀ (l : List (Nat × RedirectPolicy)) (s : TabState),
    MemInv s → MemInv (sweep s l).1 := by
  intro l
  induction l with
  | nil => intro s h; exact h
  | cons kv rest ih =>
      intro s h
      exact ih _ (cancel_timer_memInv h)

/-- C7: the wait / natural-expiry / redirect-cancellation operations all
preserve the membership invariant, and each removing operation removes
the handle from both collections. -/
theorem timer_sets_membership_invariant (s : TabState) (hinv : MemInv s) :
    (∀ tid ms p, MemInv (wait s tid ms p).1) ∧
    (∀ tid, MemInv (on_wait_timeout s tid).1 ∧
      tid ∉ (on_wait_timeout s tid).1.activeTimers ∧
      (∀ q, (tid, q) ∉ (on_wait_timeout s tid).1.cancelOnRedirectTimers)) ∧
    (∀ tid q, MemInv (cancel_timer s tid q).1 ∧
      tid ∉ (cancel_timer s tid q).1.activeTimers ∧
      (∀ q2, (tid, q2) ∉ (cancel_timer s tid q).1.cancelOnRedirectTimers)) ∧
    (∀ c, MemInv (on_url_changed s c).1) := by
  refine ⟨?_, ?_, ?_, ?_⟩
  · intro tid ms p t q hm
    cases p with
    | none =>
        simp only [wait] at hm ⊢
        exact mem_setAdd.mpr (Or.inr (hinv t q hm))
    | some pol =>
        simp only [wait, dictSet] at hm ⊢
        rcases List.mem_cons.mp hm with he | hm2
        · rcases Prod.mk.injEq .. ▸ he with ⟨rfl, rfl⟩
          exact mem_setAdd.mpr (Or.inl rfl)
        · exact mem_setAdd.mpr (Or.inr (hinv t q (mem_dictPop.mp hm2).1))
  · intro tid
    refine ⟨?_, ?_, ?_⟩
    · intro t q hm
      simp only [on_wait_timeout] at hm ⊢
      have h2 := mem_dictPop.mp hm
      exact mem_setRemove.mpr ⟨hinv t q h2.1, h2.2⟩
    · intro hm
      simp only [on_wait_timeout] at hm
      exact (mem_setRemove.mp hm).2 rfl
    · intro q hm
      simp only [on_wait_timeout] at hm
      exact (mem_dictPop.mp hm).2 rfl
  · intro tid q
    refine ⟨cancel_timer_memInv hinv, ?_, ?_⟩
    · intro hm
      simp only [cancel_timer] at hm
      exact (mem_setRemove.mp hm).2 rfl
    · intro q2 hm
      simp only [cancel_timer] at hm
      exact (mem_dictPop.mp hm).2 rfl
  · intro c
    cases c with
    | none => exact sweep_memInv _ _ hinv
    | some e =>
        refine sweep_memInv _ _ ?_
        intro t q hm
        exact hinv t q hm

/-- Witness for C7 at a concrete tab satisfying the invariant. -/
theorem timer_sets_membership_invariant_witness :
    MemInv (on_wait_timeout stTimer7 7).1 ∧
    7 ∉ (on_wait_timeout stTimer7 7).1.activeTimers := by
  have hinv : MemInv stTimer7 := by
    intro t q hm
    simp only [stTimer7] at hm ⊢
    rcases List.mem_singleton.mp hm with he
    rcases Prod.mk.injEq .. ▸ he with ⟨rfl, rfl⟩
    exact List.mem_singleton.mpr rfl
  exact ⟨((timer_sets_membership_invariant stTimer7 hinv).2.1 7).1,
         ((timer_sets_membership_invariant stTimer7 hinv).2.1 7).2.1⟩

/-- Timer `tid` is scheduled with policy `p`: started and not stopped,
its identifier consumed, and the redirect-cancel dict holding exactly
the association `(tid, p)` for it. -/
def PendingAt (tid : Nat) (p : RedirectPolicy) (s : TabState) : Prop :=
  tid ∈ s.runningTimers ∧ tid ∈ s.usedTimers ∧
  keyOccs tid s.cancelOnRedirectTimers = [p]

/-- Timer `tid` has been cancelled or has fired: no longer started, its
identifier consumed, and no redirect-cancel association left. -/
def CancelledAt (tid : Nat) (s : TabState) : Prop :=
  tid ∉ s.runningTimers ∧ tid ∈ s.usedTimers ∧
  keyOccs tid s.cancelOnRedirectTimers = []

/-- The trace contains neither the original callback nor the
redirect-cancellation callback of timer `tid`. -/
def noTidEv (tid : Nat) (tr : List Ev) : Prop :=
  Ev.timerCallback tid ∉ tr ∧ Ev.redirectCallback tid ∉ tr

theorem noTidEv_append {tid : Nat} {a b : List Ev}
    (ha : noTidEv tid a) (hb : noTidEv tid b) : noTidEv tid (a ++ b) := by
  constructor
  · intro hmem
    rcases List.mem_append.mp hmem with hm | hm
    · exact ha.1 hm
    · exact hb.1 hm
  · intro hmem
    rcases List.mem_append.mp hmem with hm | hm
    · exact ha.2 hm
    · exact hb.2 hm

theorem cancel_timer_pendingAt {s : TabState} {tid t : Nat}
    {p q : RedirectPolicy} (ht : t ≠ tid) (hp : PendingAt tid p s) :
    PendingAt tid p (cancel_timer s t q).1 := by
  obtain ⟨h1, h2, h3⟩ := hp
  refine ⟨?_, h2, ?_⟩
  · exact mem_setRemove.mpr ⟨h1, Ne.symm ht⟩
  · simp only [cancel_timer]
    rw [keyOccs_dictPop_ne ht, h3]

theorem cancel_timer_cancelledAt {s : TabState} {tid t : Nat}
    {q : RedirectPolicy} (ht : t ≠ tid) (hp : CancelledAt tid s) :
    CancelledAt tid (cancel_timer s t q).1 := by
  obtain ⟨h1, h2, h3⟩ := hp
  refine ⟨?_, h2, ?_⟩
  · intro hmem
    exact h1 (mem_setRemove.mp hmem).1
  · simp only [cancel_timer]
    rw [keyOccs_dictPop_ne ht, h3]

theorem cancel_timer_other_noTidEv {s : TabState} {tid t : Nat}
    {q : RedirectPolicy} (ht : t ≠ tid) :
    noTidEv tid (cancel_timer s t q).2 := by
  cases q <;>
    simp [cancel_timer, noTidEv, Ne.symm ht]

theorem sweep_fst_cons {s : TabState} {kv : Nat × RedirectPolicy}
    {rest : List (Nat × RedirectPolicy)} :
    (sweep s (kv :: rest)).1 = (sweep (cancel_timer s kv.1 kv.2).1 rest).1 := rfl

theorem sweep_snd_cons {s : TabState} {kv : Nat × RedirectPolicy}
    {rest : List (Nat × RedirectPolicy)} :
    (sweep s (kv :: rest)).2 =
      (cancel_timer s kv.1 kv.2).2 ++ (sweep (cancel_timer s kv.1 kv.2).1 rest).2 := rfl

theorem sweep_pendingAt {tid : Nat} {p : RedirectPolicy} :
    ∀ (l : List (Nat × RedirectPolicy)) (s : TabState),
      (∀ kv ∈ l, kv.1 ≠ tid) → PendingAt tid p s →
      PendingAt tid p (sweep s l).1 ∧ noTidEv tid (sweep s l).2 := by
  intro l
  induction l with
  | nil => exact fun s _ hp => ⟨hp, by simp [sweep, noTidEv]⟩
  | cons kv rest ih =>
      intro s hl hp
      have hk : kv.1 ≠ tid := hl kv (List.mem_cons_self kv rest)
      have h1 := cancel_timer_pendingAt (q := kv.2) hk hp
      have h2 := cancel_timer_other_noTidEv (s := s) (q := kv.2) hk
      have h3 := ih (cancel_timer s kv.1 kv.2).1
        (fun kv2 hm => hl kv2 (List.mem_cons_of_mem kv hm)) h1
      exact ⟨sweep_fst_cons ▸ h3.1, sweep_snd_cons ▸ noTidEv_append h2 h3.2⟩

theorem sweep_cancelledAt {tid : Nat} :
    ∀ (l : List (Nat × RedirectPolicy)) (s : TabState),
      (∀ kv ∈ l, kv.1 ≠ tid) → CancelledAt tid s →
      CancelledAt tid (sweep s l).1 ∧ noTidEv tid (sweep s l).2 := by
  intro l
  induction l with
  | nil => exact fun s _ hp => ⟨hp, by simp [sweep, noTidEv]⟩
  | cons kv rest ih =>
      intro s hl hp
      have hk : kv.1 ≠ tid := hl kv (List.mem_cons_self kv rest)
      have h1 := cancel_timer_cancelledAt (q := kv.2) hk hp
      have h2 := cancel_timer_other_noTidEv (s := s) (q := kv.2) hk
      have h3 := ih (cancel_timer s kv.1 kv.2).1
        (fun kv2 hm => hl kv2 (List.mem_cons_of_mem kv hm)) h1
      exact ⟨sweep_fst_cons ▸ h3.1, sweep_snd_cons ▸ noTidEv_append h2 h3.2⟩

theorem keyOccs_singleton_split {x : Nat} {p : RedirectPolicy} :
    ∀ {d : List (Nat × RedirectPolicy)}, keyOccs x d = [p] →
      ∃ l1 l2, d = l1 ++ (x, p) :: l2 ∧
        (∀ kv ∈ l1, kv.1 ≠ x) ∧ (∀ kv ∈ l2, kv.1 ≠ x) := by
  intro d
  induction d with
  | nil => intro h; exact absurd h (by simp [keyOccs])
  | cons kv rest ih =>
      intro h
      by_cases hk : kv.1 = x
      · rw [keyOccs_cons, if_pos hk] at h
        injection h with h1 h2
        refine ⟨[], rest, ?_, by simp, keyOccs_eq_nil_iff.mp h2⟩
        have hkv : kv = (x, p) := by
          obtain ⟨a, b⟩ := kv
          simp only at hk h1
          rw [hk, h1]
        rw [hkv]
        rfl
      · rw [keyOccs_cons, if_neg hk] at h
        obtain ⟨l1, l2, rfl, ha, hb⟩ := ih h
        refine ⟨kv :: l1, l2, rfl, ?_, hb⟩
        intro y hy
        rcases List.mem_cons.mp hy with rfl | hy2
        · exact hk
        · exact ha y hy2

theorem sweep_fst_append (s : TabState) (u v : List (Nat × RedirectPolicy)) :
    (sweep s (u ++ v)).1 = (sweep (sweep s u).1 v).1 := by
  induction u generalizing s with
  | nil => rfl
  | cons kv rest ih => simp only [List.cons_append, sweep_fst_cons, ih]

theorem sweep_snd_append (s : TabState) (u v : List (Nat × RedirectPolicy)) :
    (sweep s (u ++ v)).2 =
      (sweep s u).2 ++ (sweep (sweep s u).1 v).2 := by
  induction u generalizing s with
  | nil => rfl
  | cons kv rest ih =>
      simp only [List.cons_append, sweep_snd_cons, sweep_fst_cons, ih,
        List.append_assoc]

theorem wait_pendingAt (s : TabState) (tid ms : Nat) (p : RedirectPolicy) :
    PendingAt tid p (wait s tid ms (some p)).1 := by
  refine ⟨mem_setAdd.mpr (Or.inl rfl), mem_setAdd.mpr (Or.inl rfl), ?_⟩
  simp only [wait]
  exact keyOccs_dictSet_self

theorem on_url_changed_cancels {tid : Nat} {p : RedirectPolicy} {s : TabState}
    (hp : PendingAt tid p s) (c : Option HistoryEntry) :
    CancelledAt tid (on_url_changed s c).1 ∧
    Ev.timerCallback tid ∉ (on_url_changed s c).2 ∧
    (p = RedirectPolicy.withCallback →
      ∃ A B, (on_url_changed s c).2 = A ++ Ev.redirectCallback tid :: B ∧
        Ev.redirectCallback tid ∉ A ∧ Ev.redirectCallback tid ∉ B ∧
        Ev.popCancel tid ∈ A ∧ Ev.removeActive tid ∈ A) ∧
    (p = RedirectPolicy.justCancel →
      Ev.redirectCallback tid ∉ (on_url_changed s c).2) := by
  have key : ∀ (s1 : TabState), PendingAt tid p s1 →
      CancelledAt tid (sweep s1 s1.cancelOnRedirectTimers).1 ∧
      Ev.timerCallback tid ∉ (sweep s1 s1.cancelOnRedirectTimers).2 ∧
      (p = RedirectPolicy.withCallback →
        ∃ A B, (sweep s1 s1.cancelOnRedirectTimers).2 =
            A ++ Ev.redirectCallback tid :: B ∧
          Ev.redirectCallback tid ∉ A ∧ Ev.redirectCallback tid ∉ B ∧
          Ev.popCancel tid ∈ A ∧ Ev.removeActive tid ∈ A) ∧
      (p = RedirectPolicy.justCancel →
        Ev.redirectCallback tid ∉ (sweep s1 s1.cancelOnRedirectTimers).2) := by
    intro s1 hp1
    obtain ⟨hr, hu, hks⟩ := hp1
    obtain ⟨l1, l2, hsplit, ha, hb⟩ := keyOccs_singleton_split hks
    rw [hsplit]
    have h1 := sweep_pendingAt l1 s1 ha ⟨hr, hu, hks⟩
    have hcanc3 : CancelledAt tid (cancel_timer (sweep s1 l1).1 tid p).1 := by
      refine ⟨?_, h1.1.2.1, ?_⟩
      · intro hm
        exact (mem_setRemove.mp hm).2 rfl
      · simp only [cancel_timer]
        exact keyOccs_dictPop_self
    have h3 := sweep_cancelledAt l2 (cancel_timer (sweep s1 l1).1 tid p).1 hb hcanc3
    refine ⟨?_, ?_, ?_, ?_⟩
    · rw [sweep_fst_append, sweep_fst_cons]
      exact h3.1
    · rw [sweep_snd_append, sweep_snd_cons]
      intro hm
      rcases List.mem_append.mp hm with hm1 | hm23
      · exact h1.2.1 hm1
      · rcases List.mem_append.mp hm23 with hm2 | hm3
        · cases p <;> simp [cancel_timer] at hm2
        · exact h3.2.1 hm3
    · intro hpc
      subst hpc
      rw [sweep_snd_append, sweep_snd_cons]
      refine ⟨(sweep s1 l1).2 ++
          [Ev.logEv "cancelling timer" 2, Ev.popCancel tid, Ev.removeActive tid,
           Ev.stopTimer tid],
        (sweep (cancel_timer (sweep s1 l1).1 tid RedirectPolicy.withCallback).1 l2).2,
        ?_, ?_, h3.2.2, ?_, ?_⟩
      · simp [cancel_timer, List.append_assoc]
      · intro hm
        rcases List.mem_append.mp hm with hm1 | hm2
        · exact h1.2.2 hm1
        · simp at hm2
      · simp [List.mem_append]
      · simp [List.mem_append]
    · intro hpc
      subst hpc
      rw [sweep_snd_append, sweep_snd_cons]
      intro hm
      rcases List.mem_append.mp hm with hm1 | hm23
      · exact h1.2.2 hm1
      · rcases List.mem_append.mp hm23 with hm2 | hm3
        · simp [cancel_timer] at hm2
        · exact h3.2.2 hm3
  cases c with
  | none =>
      have hgoal := key s hp
      simpa only [on_url_changed] using hgoal
  | some eh =>
      have hgoal := key { s with history := s.history ++ [some eh] }
        ⟨hp.1, hp.2.1, hp.2.2⟩
      simpa only [on_url_changed] using hgoal

theorem dispatch_pendingAt {tid : Nat} {p : RedirectPolicy} {s : TabState}
    (hp : PendingAt tid p s) (e : ExtEvent)
    (hne1 : ∀ c, e ≠ ExtEvent.urlChanged c)
    (hne2 : e ≠ ExtEvent.timerFired tid) :
    PendingAt tid p (dispatch s e).1 ∧ noTidEv tid (dispatch s e).2 := by
  cases e with
  | urlChanged c => exact absurd rfl (hne1 c)
  | timerFired t =>
      have ht : t ≠ tid := fun h => hne2 (by rw [h])
      by_cases hr : t ∈ s.runningTimers
      · simp only [dispatch, if_pos hr]
        constructor
        · obtain ⟨h1, h2, h3⟩ := hp
          refine ⟨mem_setRemove.mpr ⟨h1, Ne.symm ht⟩, h2, ?_⟩
          simp only [on_wait_timeout]
          rw [keyOccs_dictPop_ne ht, h3]
        · simp [on_wait_timeout, noTidEv, Ne.symm ht]
      · simp only [dispatch, if_neg hr]
        exact ⟨hp, by simp [noTidEv]⟩
  | waitCall t ms q =>
      by_cases hu : t ∈ s.usedTimers
      · simp only [dispatch, if_pos hu]
        exact ⟨hp, by simp [noTidEv]⟩
      · have ht : t ≠ tid := fun h => hu (h ▸ hp.2.1)
        simp only [dispatch, if_neg hu]
        constructor
        · obtain ⟨h1, h2, h3⟩ := hp
          cases q with
          | none =>
              exact ⟨mem_setAdd.mpr (Or.inr h1), mem_setAdd.mpr (Or.inr h2), h3⟩
          | some pol =>
              refine ⟨mem_setAdd.mpr (Or.inr h1), mem_setAdd.mpr (Or.inr h2), ?_⟩
              simp only [wait]
              rw [keyOccs_dictSet_ne ht, h3]
        · cases q <;> simp [wait, noTidEv]

theorem dispatch_cancelledAt {tid : Nat} {s : TabState}
    (hp : CancelledAt tid s) (e : ExtEvent) :
    CancelledAt tid (dispatch s e).1 ∧ noTidEv tid (dispatch s e).2 := by
  cases e with
  | urlChanged c =>
      have hall : ∀ kv ∈ s.cancelOnRedirectTimers, kv.1 ≠ tid :=
        keyOccs_eq_nil_iff.mp hp.2.2
      cases c with
      | none =>
          have hgoal := sweep_cancelledAt s.cancelOnRedirectTimers s hall hp
          simpa only [dispatch, on_url_changed] using hgoal
      | some eh =>
          have hgoal := sweep_cancelledAt s.cancelOnRedirectTimers
            { s with history := s.history ++ [some eh] } hall
            ⟨hp.1, hp.2.1, hp.2.2⟩
          simpa only [dispatch, on_url_changed] using hgoal
  | timerFired t =>
      by_cases hr : t ∈ s.runningTimers
      · have ht : t ≠ tid := fun h => hp.1 (h ▸ hr)
        simp only [dispatch, if_pos hr]
        constructor
        · obtain ⟨h1, h2, h3⟩ := hp
          refine ⟨?_, h2, ?_⟩
          · intro hm
            exact h1 (mem_setRemove.mp hm).1
          · simp only [on_wait_timeout]
            rw [keyOccs_dictPop_ne ht, h3]
        · simp [on_wait_timeout, noTidEv, Ne.symm ht]
      · simp only [dispatch, if_neg hr]
        exact ⟨hp, by simp [noTidEv]⟩
  | waitCall t ms q =>
      by_cases hu : t ∈ s.usedTimers
      · simp only [dispatch, if_pos hu]
        exact ⟨hp, by simp [noTidEv]⟩
      · have ht : t ≠ tid := fun h => hu (h ▸ hp.2.1)
        simp only [dispatch, if_neg hu]
        constructor
        · obtain ⟨h1, h2, h3⟩ := hp
          cases q with
          | none =>
              refine ⟨?_, mem_setAdd.mpr (Or.inr h2), h3⟩
              intro hm
              rcases mem_setAdd.mp hm with he | hm2
              · exact ht he.symm
              · exact h1 hm2
          | some pol =>
              refine ⟨?_, mem_setAdd.mpr (Or.inr h2), ?_⟩
              · intro hm
                rcases mem_setAdd.mp hm with he | hm2
                · exact ht he.symm
                · exact h1 hm2
              · simp only [wait]
                rw [keyOccs_dictSet_ne ht, h3]
        · cases q <;> simp [wait, noTidEv]

theorem runEvents_fst_cons {s : TabState} {e : ExtEvent} {rest : List ExtEvent} :
    (runEvents s (e :: rest)).1 = (runEvents (dispatch s e).1 rest).1 := rfl

theorem runEvents_snd_cons {s : TabState} {e : ExtEvent} {rest : List ExtEvent} :
    (runEvents s (e :: rest)).2 =
      (dispatch s e).2 ++ (runEvents (dispatch s e).1 rest).2 := rfl

theorem runEvents_fst_append (s : TabState) (u v : List ExtEvent) :
    (runEvents s (u ++ v)).1 = (runEvents (runEvents s u).1 v).1 := by
  induction u generalizing s with
  | nil => rfl
  | cons e rest ih => simp only [List.cons_append, runEvents_fst_cons, ih]

theorem runEvents_snd_append (s : TabState) (u v : List ExtEvent) :
    (runEvents s (u ++ v)).2 =
      (runEvents s u).2 ++ (runEvents (runEvents s u).1 v).2 := by
  induction u generalizing s with
  | nil => rfl
  | cons e rest ih =>
      simp only [List.cons_append, runEvents_snd_cons, runEvents_fst_cons, ih,
        List.append_assoc]

theorem runEvents_pendingAt {tid : Nat} {p : RedirectPolicy} :
    ∀ (evs : List ExtEvent) (s : TabState), PendingAt tid p s →
      (∀ c, ExtEvent.urlChanged c ∉ evs) →
      ExtEvent.timerFired tid ∉ evs →
      PendingAt tid p (runEvents s evs).1 ∧ noTidEv tid (runEvents s evs).2 := by
  intro evs
  induction evs with
  | nil => exact fun s hp _ _ => ⟨hp, by simp [runEvents, noTidEv]⟩
  | cons e rest ih =>
      intro s hp h1 h2
      have he1 : ∀ c, e ≠ ExtEvent.urlChanged c := by
        intro c hc
        exact h1 c (by rw [← hc]; exact List.mem_cons_self e rest)
      have he2 : e ≠ ExtEvent.timerFired tid := by
        intro hc
        exact h2 (by rw [← hc]; exact List.mem_cons_self e rest)
      have hd := dispatch_pendingAt hp e he1 he2
      have hr := ih (dispatch s e).1 hd.1
        (fun c hm => h1 c (List.mem_cons_of_mem e hm))
        (fun hm => h2 (List.mem_cons_of_mem e hm))
      exact ⟨runEvents_fst_cons ▸ hr.1,
             runEvents_snd_cons ▸ noTidEv_append hd.2 hr.2⟩

theorem runEvents_cancelledAt {tid : Nat} :
    ∀ (evs : List ExtEvent) (s : TabState), CancelledAt tid s →
      CancelledAt tid (runEvents s evs).1 ∧ noTidEv tid (runEvents s evs).2 := by
  intro evs
  induction evs with
  | nil => exact fun s hp => ⟨hp, by simp [runEvents, noTidEv]⟩
  | cons e rest ih =>
      intro s hp
      have hd := dispatch_cancelledAt hp e
      have hr := ih (dispatch s e).1 hd.1
      exact ⟨runEvents_fst_cons ▸ hr.1,
             runEvents_snd_cons ▸ noTidEv_append hd.2 hr.2⟩

/-- C5: for a timer scheduled by `wait` with a non-empty redirect
policy, any event sequence whose first URL change arrives before the
timer fires never invokes the timer's original callback; when the policy
is a cancellation callback, that callback runs exactly once, after the
timer has been popped from the redirect-cancel association and removed
from the active set. -/
theorem wait_redirect_cancellation (st0 : TabState) (tid ms : Nat)
    (p : RedirectPolicy) (pre post : List ExtEvent) (c : Option HistoryEntry)
    (hpre1 : ∀ c2, ExtEvent.urlChanged c2 ∉ pre)
    (hpre2 : ExtEvent.timerFired tid ∉ pre) :
    Ev.timerCallback tid ∉
      (runEvents (wait st0 tid ms (some p)).1
        (pre ++ ExtEvent.urlChanged c :: post)).2 ∧
    (p = RedirectPolicy.withCallback →
      ∃ A B,
        (runEvents (wait st0 tid ms (some p)).1
          (pre ++ ExtEvent.urlChanged c :: post)).2 =
            A ++ Ev.redirectCallback tid :: B ∧
        Ev.redirectCallback tid ∉ A ∧ Ev.redirectCallback tid ∉ B ∧
        Ev.popCancel tid ∈ A ∧ Ev.removeActive tid ∈ A) ∧
    (p = RedirectPolicy.justCancel →
      Ev.redirectCallback tid ∉
        (runEvents (wait st0 tid ms (some p)).1
          (pre ++ ExtEvent.urlChanged c :: post)).2) := by
  have hP1 := wait_pendingAt st0 tid ms p
  have hpre := runEvents_pendingAt pre (wait st0 tid ms (some p)).1 hP1 hpre1 hpre2
  have hmid := on_url_changed_cancels hpre.1 c
  have hpost := runEvents_cancelledAt post
    (on_url_changed (runEvents (wait st0 tid ms (some p)).1 pre).1 c).1 hmid.1
  have htr : (runEvents (wait st0 tid ms (some p)).1
      (pre ++ ExtEvent.urlChanged c :: post)).2 =
    (runEvents (wait st0 tid ms (some p)).1 pre).2 ++
    ((on_url_changed (runEvents (wait st0 tid ms (some p)).1 pre).1 c).2 ++
     (runEvents
       (on_url_changed (runEvents (wait st0 tid ms (some p)).1 pre).1 c).1
       post).2) := by
    rw [runEvents_snd_append, runEvents_snd_cons]
    rfl
  refine ⟨?_, ?_, ?_⟩
  · rw [htr]
    intro hm
    rcases List.mem_append.mp hm with hm1 | hm23
    · exact hpre.2.1 hm1
    · rcases List.mem_append.mp hm23 with hm2 | hm3
      · exact hmid.2.1 hm2
      · exact hpost.2.1 hm3
  · intro hpc
    obtain ⟨A, B, hAB, hnA, hnB, hpcA, hraA⟩ := hmid.2.2.1 hpc
    refine ⟨(runEvents (wait st0 tid ms (some p)).1 pre).2 ++ A,
            B ++ (runEvents
              (on_url_changed (runEvents (wait st0 tid ms (some p)).1 pre).1 c).1
              post).2, ?_, ?_, ?_, ?_, ?_⟩
    · rw [htr, hAB]
      simp [List.append_assoc]
    · intro hm
      rcases List.mem_append.mp hm with hm1 | hm2
      · exact hpre.2.2 hm1
      · exact hnA hm2
    · intro hm
      rcases List.mem_append.mp hm with hm1 | hm2
      · exact hnB hm1
      · exact hpost.2.2 hm2
    · exact List.mem_append.mpr (Or.inr hpcA)
    · exact List.mem_append.mpr (Or.inr hraA)
  · intro hpc
    rw [htr]
    intro hm
    rcases List.mem_append.mp hm with hm1 | hm23
    · exact hpre.2.2 hm1
    · rcases List.mem_append.mp hm23 with hm2 | hm3
      · exact hmid.2.2.2 hpc hm2
      · exact hpost.2.2 hm3

/-- Witness for C5: a concrete timer scheduled with a cancellation
callback and cancelled by an immediate URL change. -/
theorem wait_redirect_cancellation_witness :
    Ev.timerCallback 1 ∉
      (runEvents (wait stOpen 1 50 (some RedirectPolicy.withCallback)).1
        [ExtEvent.urlChanged none]).2 ∧
    ∃ A B, (runEvents (wait stOpen 1 50 (some RedirectPolicy.withCallback)).1
        [ExtEvent.urlChanged none]).2 = A ++ Ev.redirectCallback 1 :: B ∧
      Ev.redirectCallback 1 ∉ A ∧ Ev.redirectCallback 1 ∉ B ∧
      Ev.popCancel 1 ∈ A ∧ Ev.removeActive 1 ∈ A := by
  have h := wait_redirect_cancellation stOpen 1 50 RedirectPolicy.withCallback
    [] [] none (by simp) (by simp)
  exact ⟨h.1, h.2.1 rfl⟩
